import Mathlib

/-!
Verification of the bs-simulator backend (`src/backend/src/backend/`).

The Python code is shallowly embedded:

* Python `float` values are modelled as exact rationals (`ℚ`).  Decimal
  literals such as `0.25`, `0.6`, `1.1` are taken at their decimal value
  (written as explicit fractions `25/100`, `6/10`, `11/10`, … so that the
  kernel can evaluate them);
  `round(x, 2)` is modelled by `round2` below (round-half-to-even to a
  multiple of `1/100`, which is CPython's tie rule).
* Python `dict`s (the agent map in `_apply_actions`, the skills dict) are
  modelled as insertion-ordered association lists with CPython semantics:
  updating an existing key keeps its position, a new key is appended,
  deletion removes the entry; `values()` is the list of second components.
* `random.Random` is modelled as a deterministic source `RandomSource`: a
  stream of unit draws in `[0,1)` (modelling `random()` / `_randbelow`) and
  a separate stream of standard-normal draws (modelling the transcendental
  Box–Muller output of `gauss`); each primitive draw consumes one stream
  element.  Determinism of the embedding corresponds to the seeded
  determinism of `random.Random`.
* Fallible code returns `Except Err _`; pydantic's required-field validation
  at a constructor call site is modelled by a `…Kwargs` record of the
  keyword arguments actually provided at that call site together with a
  validating smart constructor.
* The repository (`InMemoryGameRepository`) is a store plus call counters,
  so "save was not called" is observable as an unchanged counter.
-/

/-! ### Numeric helpers (service.py `_clamp`, Python `round`, `int`) -/

/-- `service.py` `_clamp(value, min_value=0.0, max_value=100.0)`:
`max(min_value, min(value, max_value))`; the defaults `0` and `100` are
passed explicitly at every call site of this embedding. -/
def pyClamp (value minValue maxValue : ℚ) : ℚ :=
  max minValue (min value maxValue)

/-- Python `round(x)` on our exact-decimal model: round half to even. -/
def pyRound (q : ℚ) : ℤ :=
  let n := ⌊q⌋
  let f := q - n
  if f < 1/2 then n
  else if 1/2 < f then n + 1
  else if n % 2 = 0 then n else n + 1

/-- Python `round(x, 2)`. -/
def round2 (q : ℚ) : ℚ := (pyRound (q * 100) : ℚ) / 100

/-- Python `int(x)` on a float: truncation toward zero. -/
def pyInt (q : ℚ) : ℤ := Int.tdiv q.num (q.den : ℤ)

/-! ### The randomness source -/

/-- Deterministic model of `random.Random`: `unit` models the uniform
`[0,1)` draws behind `random()` / `_randbelow`, `gaussStd` models the
standard-normal draws behind `gauss` (whose Box–Muller formula is
transcendental and therefore kept abstract). -/
structure RandomSource where
  unit : ℕ → ℚ
  gaussStd : ℕ → ℚ
  unit_bounded : ∀ n, 0 ≤ unit n ∧ unit n < 1

/-- A `random.Random` instance: the source plus positions in each stream. -/
structure RngState where
  src : RandomSource
  upos : ℕ
  gpos : ℕ

/-- One call of `random()`: the next unit draw. -/
def nextUnit (s : RngState) : ℚ × RngState :=
  (s.src.unit s.upos, ⟨s.src, s.upos + 1, s.gpos⟩)

/-- `rng.uniform(a, b)` = `a + (b-a)*random()`. -/
def rngUniform (a b : ℚ) (s : RngState) : ℚ × RngState :=
  let p := nextUnit s
  (a + (b - a) * p.1, p.2)

/-- `rng.gauss(mu, sigma)` = `mu + sigma * (standard normal draw)`. -/
def rngGauss (mu sigma : ℚ)  (s : RngState) : ℚ × RngState :=
  (mu + sigma * s.src.gaussStd s.gpos, ⟨s.src, s.upos, s.gpos + 1⟩)

/-- `_randbelow(n)`: an index uniform in `{0, …, n-1}`, modelled as
`⌊u·n⌋` for a unit draw `u`. -/
def randIndex (n : ℕ) (s : RngState) : ℕ × RngState :=
  let p := nextUnit s
  ((⌊p.1 * n⌋).toNat, p.2)

/-- `rng.choice(xs)`. -/
def rngChoice (xs : List String) (s : RngState) : String × RngState :=
  let p := randIndex xs.length s
  (xs.getD p.1 "", p.2)

/-- `rng.randint(a, b)` (both ends inclusive). -/
def rngRandint (a b : ℤ) (s : RngState) : ℤ × RngState :=
  let p := randIndex (b - a + 1).toNat s
  (a + p.1, p.2)

/-! ### Association lists with CPython `dict` semantics -/

/-- `d.get(k)` / `k in d`. -/
def alookup {α : Type} (l : List (String × α)) (k : String) : Option α :=
  (l.find? (fun p => decide (p.1 = k))).map Prod.snd

/-- `d[k] = v` for an existing key: update in place (insertion order kept). -/
def aset {α : Type} (l : List (String × α)) (k : String) (v : α) :
    List (String × α) :=
  l.map (fun p => if p.1 = k then (k, v) else p)

/-- `d[k] = v`: update an existing key in place, else append. -/
def aput {α : Type} (l : List (String × α)) (k : String) (v : α) :
    List (String × α) :=
  if (alookup l k).isSome then aset l k v else l ++ [(k, v)]

/-- `d.pop(k, None)`: drop the entry with key `k`. -/
def adel {α : Type} (l : List (String × α)) (k : String) : List (String × α) :=
  l.filter (fun p => decide (¬ p.1 = k))

/-- `list(d.values())`. -/
def avalues {α : Type} (l : List (String × α)) : List α := l.map Prod.snd

/-- `sum(d.values())` for the skills dict. -/
def asum (l : List (String × ℚ)) : ℚ := (l.map Prod.snd).sum

/-! ### Domain model (`domain.py`) -/

def TRAITS : List String :=
  ["stable", "imprevisible", "logique", "collaboratif", "innovant", "rigoureux"]

def COMPETENCY_NAMES : List String :=
  ["technical", "creativity", "communication", "organisation", "autonomy"]

/-- `domain.Agent`.  The pydantic bounds `0 ≤ motivation, stability ≤ 100`
are field validators, not stored data; they are proved as the invariant of
claim C3 rather than baked into the type. -/
structure Agent where
  id : String
  name : String
  role : String
  skills : List (String × ℚ)
  strengths : List String
  weaknesses : List String
  productivity : ℚ
  salary : ℤ
  autonomy : String
  traits : List String
  motivation : ℚ
  stability : ℚ
deriving DecidableEq, Repr

/-- `domain.Company`. -/
structure Company where
  name : String
  cash : ℚ
  revenue : ℚ
  costs : ℚ
deriving DecidableEq, Repr

/-- `domain.BusinessResults`. -/
structure BusinessResults where
  revenue : ℚ
  costs : ℚ
  net : ℚ
  clients : ℤ
  errors : ℤ
  innovations : ℤ
deriving DecidableEq, Repr

/-- `domain.AgentInsight`. -/
structure AgentInsight where
  agent_id : String
  name : String
  motivation : ℚ
  stability : ℚ
  productivity : ℚ
  note : Option String
deriving DecidableEq, Repr

/-- `domain.DayReport` (all seven fields are required in the pydantic
model, `energy_total` and `energy_used` included). -/
structure DayReport where
  day : ℤ
  agent_situation : List AgentInsight
  results : BusinessResults
  decisions_impact : List String
  recommendations : List String
  energy_total : ℚ
  energy_used : ℚ
deriving DecidableEq, Repr

/-- `domain.GameState` (`energy_total` is required; `last_report` defaults
to `None`). -/
structure GameState where
  game_id : String
  day : ℤ
  company : Company
  agents : List Agent
  energy_total : ℚ
  last_report : Option DayReport
deriving DecidableEq, Repr

/-! ### Errors (`fastapi.HTTPException` / pydantic `ValidationError`) -/

inductive Err where
  | notFound (detail : String)
  | badRequest (detail : String)
  | validation (missing : List String)
deriving DecidableEq, Repr

/-- `Except.isOk`-style discriminator. -/
def isOkE {α : Type} : Except Err α → Bool
  | .ok _ => true
  | .error _ => false

instance {α : Type} [DecidableEq α] : DecidableEq (Except Err α) :=
  fun a b =>
    match a, b with
    | .ok x, .ok y =>
        if h : x = y then isTrue (by rw [h])
        else isFalse (by intro hh; injection hh; exact h (by assumption))
    | .error x, .error y =>
        if h : x = y then isTrue (by rw [h])
        else isFalse (by intro hh; injection hh; exact h (by assumption))
    | .ok _, .error _ => isFalse (by intro hh; injection hh)
    | .error _, .ok _ => isFalse (by intro hh; injection hh)

/-! ### `_compute_results` (service.py lines 143-171) -/

/-- The revenue accumulation loop of `_compute_results`: for each agent,
`skill_factor * productivity * (0.6 + motivation/100) * 1200 * variance`
with `variance = 1 + uniform(-0.05, 0.1)`.  (In Python an agent with an
empty skills dict would raise `ZeroDivisionError`; `ℚ` division by zero is
total here, and no claim depends on that case.) -/
def revenueLoop (agents : List Agent) (s : RngState) : ℚ × RngState :=
  agents.foldl
    (fun acc a =>
      let skillFactor := asum a.skills / (a.skills.length * 100)
      let motivationFactor := a.motivation / 100
      let output := skillFactor * a.productivity * (6/10 + motivationFactor)
      let p := rngUniform (-(5/100)) (1/10) acc.2
      (acc.1 + output * 1200 * (1 + p.1), p.2))
    (0, s)

/-- `GameService._compute_results(agents, extra_costs)`. -/
def computeResults (agents : List Agent) (extraCosts : ℚ) (s : RngState) :
    BusinessResults × RngState :=
  let rev := revenueLoop agents s
  let baseCosts := (agents.map (fun a => (a.salary : ℚ) / 260)).sum
  let maintenance : ℚ := 400 + 60 * agents.length
  let costs0 := baseCosts + maintenance + extraCosts
  let gi := rngGauss (agents.length * (2/10)) (6/10) rev.2
  let innovations := pyInt (max 0 gi.1)
  let ge := rngGauss (agents.length * (1/10)) (4/10) gi.2
  let errors := pyInt (max 0 ge.1)
  let clients := max 0 ⌊rev.1 / (4500 : ℚ)⌋
  let revenue := round2 rev.1
  let costs := round2 costs0
  let net := round2 (revenue - costs)
  (⟨revenue, costs, net, clients, errors, innovations⟩, ge.2)

/-! ### Candidate generator (`domain.py` lines 77-127) -/

/-- `random.sample(xs, 2)` (CPython pool algorithm for small populations):
`j₁ = randbelow(n)`, take `pool[j₁]`, overwrite it with `pool[n-1]`,
`j₂ = randbelow(n-1)`, take `pool[j₂]`. -/
def sample2 (xs : List String) (s : RngState) : List String × RngState :=
  let n := xs.length
  let p1 := randIndex n s
  let x1 := xs.getD p1.1 ""
  let pool1 := xs.set p1.1 (xs.getD (n - 1) "")
  let p2 := randIndex (n - 1) p1.2
  ([x1, pool1.getD p2.1 ""], p2.2)

/-- `random.sample(xs, 3)` (same pool algorithm, three rounds). -/
def sample3 (xs : List String) (s : RngState) : List String × RngState :=
  let n := xs.length
  let p1 := randIndex n s
  let x1 := xs.getD p1.1 ""
  let pool1 := xs.set p1.1 (xs.getD (n - 1) "")
  let p2 := randIndex (n - 1) p1.2
  let x2 := pool1.getD p2.1 ""
  let pool2 := pool1.set p2.1 (pool1.getD (n - 2) "")
  let p3 := randIndex (n - 2) p2.2
  ([x1, x2, pool2.getD p3.1 ""], p3.2)

/-- `domain._random_name`. -/
def randomName (s : RngState) : String × RngState :=
  let first := ["Nova", "Atlas", "Vega", "Orion", "Lumen", "Echo"]
  let last := ["Core", "Pulse", "Stack", "Logic", "Prime", "Grid"]
  let p1 := rngChoice first s
  let p2 := rngChoice last p1.2
  (p1.1 ++ " " ++ p2.1, p2.2)

/-- `domain._random_role`. -/
def randomRole (s : RngState) : String × RngState :=
  rngChoice ["Ops", "Marketing", "Finance", "Support", "R&D"] s

/-- `domain._random_autonomy`. -/
def randomAutonomy (s : RngState) : String × RngState :=
  rngChoice ["low", "medium", "high"] s

/-- One iteration of the `while remaining > 0` loop of
`domain._random_skills`: draw a competency; if it is not saturated,
increment it and decrement `remaining`. -/
def skillsStep (stats : List (String × ℚ)) (remaining : ℕ) (s : RngState) :
    List (String × ℚ) × ℕ × RngState :=
  let p := rngChoice COMPETENCY_NAMES s
  let v := (alookup stats p.1).getD 0
  if v < 10 then (aset stats p.1 (v + 1), remaining - 1, p.2)
  else (stats, remaining, p.2)

/-- The whole `while remaining > 0` loop of `domain._random_skills`, with
explicit fuel: the Python loop retries forever when the chosen competency
is saturated, so an adversarial draw stream need not terminate; `none`
models a run that has not terminated within `fuel` iterations. -/
def skillsLoop (fuel : ℕ) (stats : List (String × ℚ)) (remaining : ℕ)
    (s : RngState) : Option (List (String × ℚ) × RngState) :=
  match remaining with
  | 0 => some (stats, s)
  | r + 1 =>
    match fuel with
    | 0 => none
    | f + 1 =>
      let t := skillsStep stats (r + 1) s
      skillsLoop f t.1 t.2.1 t.2.2

/-- `domain._random_skills`: start every competency at 1 and distribute the
remaining `20 - len(COMPETENCY_NAMES)` points. -/
def randomSkills (fuel : ℕ) (s : RngState) :
    Option (List (String × ℚ) × RngState) :=
  skillsLoop fuel (COMPETENCY_NAMES.map (fun n => (n, (1 : ℚ))))
    (20 - COMPETENCY_NAMES.length) s

/-- `domain.generate_agent`.  `fresh` models the `uuid4()` identifier
(which does not consume the `random.Random` source); draws follow Python's
evaluation order.  Returns `none` only if the skills loop runs out of
fuel. -/
def generateAgent (fresh : String) (salaryOverride : Option ℤ) (fuel : ℕ)
    (s : RngState) : Option (Agent × RngState) :=
  let pStrengths := sample2 COMPETENCY_NAMES s
  let strengths := pStrengths.1
  let weaknesses :=
    (COMPETENCY_NAMES.filter (fun n => decide (n ∉ strengths))).take 1
  let pProd := rngUniform (6/10) (11/10) pStrengths.2
  let productivity := round2 pProd.1
  let pSalary :=
    match salaryOverride with
    | some v => (v, pProd.2)
    | none => rngRandint 55000 110000 pProd.2
  let pName := randomName pSalary.2
  let pRole := randomRole pName.2
  match randomSkills fuel pRole.2 with
  | none => none
  | some pSkills =>
    let pAut := randomAutonomy pSkills.2
    let pTraits := sample3 TRAITS pAut.2
    some (⟨fresh, pName.1, pRole.1, pSkills.1, strengths, weaknesses,
      productivity, pSalary.1, pAut.1, pTraits.1, 65, 70⟩, pTraits.2)

/-- `domain.initial_company`. -/
def initialCompany (name : String) : Company :=
  ⟨name, 120000, 0, 0⟩

/-- `domain.create_initial_state` (the roster is empty in this revision;
`energy_total` is provided, so this `GameState` construction validates). -/
def createInitialState (companyName : String) (freshGid : String) :
    GameState :=
  ⟨freshGid, 1, initialCompany companyName, [], 100, none⟩

/-! ### Request schemas (`schemas.py`) -/

/-- `schemas.StartGameRequest`. -/
structure StartGameRequest where
  company_name : String
deriving DecidableEq, Repr

/-- `schemas.ManagerAction`.  The pydantic schema restricts `action` to the
five literals at the HTTP boundary; the service's `else` branch handles any
other string, so `action` is modelled as `String`. -/
structure ManagerAction where
  agent_id : String
  action : String
  focus : Option String
deriving DecidableEq, Repr

/-- `schemas.ActionRequest`. -/
structure ActionRequest where
  game_id : String
  actions : List ManagerAction
deriving DecidableEq, Repr

/-- `schemas.HireRequest`. -/
structure HireRequest where
  game_id : String
  candidate : Agent
deriving DecidableEq, Repr

/-! ### pydantic constructor-call validation

`service.py` calls `DayReport(...)` and `GameState(...)` with keyword
arguments; pydantic raises a `ValidationError` naming every required field
absent from the call.  A `…Kwargs` record holds the arguments of one call
site (`none` = not provided), and the `mk…` functions perform pydantic's
required-field check. -/

structure DayReportKwargs where
  day : Option ℤ
  agent_situation : Option (List AgentInsight)
  results : Option BusinessResults
  decisions_impact : Option (List String)
  recommendations : Option (List String)
  energy_total : Option ℚ
  energy_used : Option ℚ
deriving DecidableEq, Repr

/-- The required `DayReport` fields missing from a call, in declaration
order. -/
def dayReportMissing (k : DayReportKwargs) : List String :=
  (if k.day.isSome then [] else ["day"]) ++
  (if k.agent_situation.isSome then [] else ["agent_situation"]) ++
  (if k.results.isSome then [] else ["results"]) ++
  (if k.decisions_impact.isSome then [] else ["decisions_impact"]) ++
  (if k.recommendations.isSome then [] else ["recommendations"]) ++
  (if k.energy_total.isSome then [] else ["energy_total"]) ++
  (if k.energy_used.isSome then [] else ["energy_used"])

/-- `DayReport(...)` as called with keyword arguments. -/
def mkDayReport (k : DayReportKwargs) : Except Err DayReport :=
  match k.day, k.agent_situation, k.results, k.decisions_impact,
      k.recommendations, k.energy_total, k.energy_used with
  | some d, some ag, some r, some di, some rec, some et, some eu =>
      .ok ⟨d, ag, r, di, rec, et, eu⟩
  | _, _, _, _, _, _, _ => .error (.validation (dayReportMissing k))

/-- The keyword arguments of a `GameState(...)` call.  `last_report` has
default `None`, so it is never missing; the other five fields are
required. -/
structure GameStateKwargs where
  game_id : Option String
  day : Option ℤ
  company : Option Company
  agents : Option (List Agent)
  energy_total : Option ℚ
  last_report : Option DayReport
deriving DecidableEq, Repr

/-- The required `GameState` fields missing from a call, in declaration
order. -/
def gameStateMissing (k : GameStateKwargs) : List String :=
  (if k.game_id.isSome then [] else ["game_id"]) ++
  (if k.day.isSome then [] else ["day"]) ++
  (if k.company.isSome then [] else ["company"]) ++
  (if k.agents.isSome then [] else ["agents"]) ++
  (if k.energy_total.isSome then [] else ["energy_total"])

/-- `GameState(...)` as called with keyword arguments. -/
def mkGameState (k : GameStateKwargs) : Except Err GameState :=
  match k.game_id, k.day, k.company, k.agents, k.energy_total with
  | some g, some d, some c, some ag, some et =>
      .ok ⟨g, d, c, ag, et, k.last_report⟩
  | _, _, _, _, _ => .error (.validation (gameStateMissing k))

/-! ### Repository (`repositories.InMemoryGameRepository`)

The store is keyed by `game_id`; `creates`/`saves` count the calls, so
"`save` was not called" is an unchanged counter. -/

structure RepoState where
  store : List (String × GameState)
  creates : ℕ
  saves : ℕ
deriving DecidableEq, Repr

/-- `repository.get`: 404 when the game id is unknown. -/
def repoGet (r : RepoState) (gameId : String) : Except Err GameState :=
  match alookup r.store gameId with
  | some st => .ok st
  | none => .error (.notFound "Partie introuvable")

/-- `repository.create`. -/
def repoCreate (r : RepoState) (st : GameState) : RepoState :=
  ⟨aput r.store st.game_id st, r.creates + 1, r.saves⟩

/-- `repository.save`. -/
def repoSave (r : RepoState) (st : GameState) : RepoState :=
  ⟨aput r.store st.game_id st, r.creates, r.saves + 1⟩

/-! ### The game service (`service.py`) -/

/-- The recommendation provider (`llm.LLMEngine.generate_recommendations`):
receives the state and the report and may fail. -/
def LLM : Type := GameState → DayReport → Except Err (List String)

/-- One iteration of the `for action in actions` loop of
`GameService._apply_actions`: look the target up in the insertion-ordered
agent map, dispatch on the action kind, and return the updated map, notes
and extra costs. -/
def actionStep (m : List (String × Agent)) (act : ManagerAction)
    (notes : List String) (extraCosts : ℚ) :
    Except Err (List (String × Agent) × List String × ℚ) :=
  match alookup m act.agent_id with
  | none => .error (.notFound ("Agent " ++ act.agent_id ++ " introuvable"))
  | some agent =>
    if act.action = "assign_tasks" then
      let motivation := pyClamp (agent.motivation + 5) 0 100
      let stability := pyClamp (agent.stability - 2) 0 100
      .ok (aset m agent.id
          { agent with motivation := motivation, stability := stability },
        notes ++ ["Tâches ajustées pour " ++ agent.name], extraCosts)
    else if act.action = "train" then
      -- Python `action.focus or "production"`: `None` and `""` are falsy.
      let focus :=
        match act.focus with
        | none => "production"
        | some f => if f = "" then "production" else f
      let skills :=
        match alookup agent.skills focus with
        | some v => aset agent.skills focus (pyClamp (v + 5) 0 100)
        | none => agent.skills
      let motivation := pyClamp (agent.motivation + 6) 0 100
      .ok (aset m agent.id
          { agent with skills := skills, motivation := motivation },
        notes ++ ["Formation " ++ focus ++ " pour " ++ agent.name],
        extraCosts + 800)
    else if act.action = "promote" then
      let motivation := pyClamp (agent.motivation + 10) 0 100
      let productivity := round2 (agent.productivity + 5/100)
      let salary := pyInt ((agent.salary : ℚ) * (11/10))
      .ok (aset m agent.id
          { agent with motivation := motivation,
                       productivity := productivity, salary := salary },
        notes ++ ["Promotion accordée à " ++ agent.name], extraCosts)
    else if act.action = "fire" then
      .ok (adel m agent.id,
        notes ++ [agent.name ++ " licencié(e)"],
        extraCosts + (agent.salary : ℚ) * (25/100))
    else if act.action = "support" then
      let stability := pyClamp (agent.stability + 12) 0 100
      let motivation := pyClamp (agent.motivation + 4) 0 100
      .ok (aset m agent.id
          { agent with stability := stability, motivation := motivation },
        notes ++ ["Coaching/soutien pour " ++ agent.name], extraCosts)
    else .error (.badRequest "Action inconnue")

/-- The whole loop of `GameService._apply_actions`. -/
def actionsLoop (m : List (String × Agent)) (acts : List ManagerAction)
    (notes : List String) (extraCosts : ℚ) :
    Except Err (List (String × Agent) × List String × ℚ) :=
  match acts with
  | [] => .ok (m, notes, extraCosts)
  | act :: rest =>
    match actionStep m act notes extraCosts with
    | .error e => .error e
    | .ok out => actionsLoop out.1 rest out.2.1 out.2.2

/-- `{agent.id: agent for agent in agents}`. -/
def dictOfAgents (agents : List Agent) : List (String × Agent) :=
  agents.foldl (fun m a => aput m a.id a) []

/-- `GameService._apply_actions`: build the agent map, run the loop, return
`(list(agent_map.values()), decisions_impact, extra_costs)`. -/
def resolveActions (agents : List Agent) (acts : List ManagerAction) :
    Except Err (List Agent × List String × ℚ) :=
  match actionsLoop (dictOfAgents agents) acts [] 0 with
  | .ok out => .ok (avalues out.1, out.2.1, out.2.2)
  | .error e => .error e

/-- `GameService._build_report`: compute results, update the company ledger
on the passed state, build insights, construct the `DayReport` (the call
provides neither `energy_total` nor `energy_used`), then ask the
recommendation provider.  Returns the report together with the mutated
state; the randomness state is returned even on failure because
`_compute_results` has already consumed it. -/
def buildReport (llm : LLM) (st : GameState) (decisionsImpact : List String)
    (extraCosts : ℚ) (rng : RngState) :
    (Except Err (DayReport × GameState)) × RngState :=
  let res := computeResults st.agents extraCosts rng
  let results := res.1
  let company' : Company :=
    ⟨st.company.name, round2 (st.company.cash + results.net),
      results.revenue, results.costs⟩
  let st' := { st with company := company' }
  let insights := st.agents.map (fun a =>
    (⟨a.id, a.name, a.motivation, a.stability, a.productivity,
      if a.autonomy = "high" then some "Autonome" else none⟩ : AgentInsight))
  match mkDayReport ⟨some st.day, some insights, some results,
      some (if decisionsImpact = [] then ["Pas de décision prise"]
        else decisionsImpact),
      some [], none, none⟩ with
  | .error e => (.error e, res.2)
  | .ok report =>
    match llm st' report with
    | .error e => (.error e, res.2)
    | .ok recs =>
        (.ok ({ report with recommendations := recs }, st'), res.2)

/-- `GameService.start_game`: build the initial state, build the day-1
report, store the report on the state, persist via `repository.create`.
`freshGid` models the `uuid4()` game id. -/
def startGame (llm : LLM) (r : RepoState) (rng : RngState)
    (payload : StartGameRequest) (freshGid : String) :
    (Except Err GameState) × RepoState × RngState :=
  let state := createInitialState payload.company_name freshGid
  let rep := buildReport llm state ["Entreprise créée"] 0 rng
  match rep.1 with
  | .error e => (.error e, r, rep.2)
  | .ok out =>
      let st2 := { out.2 with last_report := some out.1 }
      (.ok st2, repoCreate r st2, rep.2)

/-- `GameService.apply_actions`: load the state, resolve the action batch,
construct the next `GameState` (the call site provides `game_id`, `day`,
`company`, `agents` and `last_report=None` but not `energy_total`), build
the report, persist via `repository.save`. -/
def applyActions (llm : LLM) (r : RepoState) (rng : RngState)
    (payload : ActionRequest) :
    (Except Err (GameState × DayReport)) × RepoState × RngState :=
  match repoGet r payload.game_id with
  | .error e => (.error e, r, rng)
  | .ok state =>
    match resolveActions state.agents payload.actions with
    | .error e => (.error e, r, rng)
    | .ok out =>
      match mkGameState ⟨some state.game_id, some (state.day + 1),
          some state.company, some out.1, none, none⟩ with
      | .error e => (.error e, r, rng)
      | .ok nextState =>
        let rep := buildReport llm nextState out.2.1 out.2.2 rng
        match rep.1 with
        | .error e => (.error e, r, rep.2)
        | .ok built =>
          let st2 := { built.2 with last_report := some built.1 }
          (.ok (st2, built.1), repoSave r st2, rep.2)

/-- Modelled from the spec: `GameService.hire_candidate` is referenced by
the HTTP layer (`app.py` line 97) and by the tests, but no such method
exists in `service.py`.  Spec §4.5 — "hire: appends a previously generated
candidate to the persisted roster; day counter unaffected; persists updated
state."  All transitions are keyed by a game id resolved through the
repository; unknown identifiers fail with a "game not found" error. -/
def hireCandidate (r : RepoState) (payload : HireRequest) :
    (Except Err GameState) × RepoState :=
  match repoGet r payload.game_id with
  | .error e => (.error e, r)
  | .ok state =>
      let st2 := { state with agents := state.agents ++ [payload.candidate] }
      (.ok st2, repoSave r st2)

/-! ### Concrete fixtures used by witnesses and counterexample runs -/

/-- A concrete randomness source: unit draws cycle through
`0, 1/5, 2/5, 3/5, 4/5`, normal draws are `0`. -/
def rngW : RngState :=
  ⟨⟨fun n => ((n % 5 : ℕ) : ℚ) / 5, fun _ => 0, by
      intro n
      constructor
      · positivity
      · rw [div_lt_one (by norm_num)]
        exact_mod_cast Nat.mod_lt n (by norm_num)⟩, 0, 0⟩

/-- A recommendation provider that always succeeds (like the test stubs). -/
def llmStub : LLM := fun _ _ => .ok ["Recommandation test"]

/-- A concrete roster member with the five standard competencies (and, in
particular, no "marketing" skill — `generate_agent` can produce no such
skill either, since `COMPETENCY_NAMES` does not contain it). -/
def agent0 : Agent :=
  ⟨"a1", "Nova Core", "Ops",
    [("technical", 4), ("creativity", 4), ("communication", 4),
     ("organisation", 4), ("autonomy", 4)],
    ["technical", "creativity"], ["communication"],
    4/5, 60000, "low", ["stable", "logique", "rigoureux"], 65, 70⟩

/-- A concrete stored game on day 1. -/
def game0 : GameState :=
  ⟨"g1", 1, ⟨"Nova", 120000, 0, 0⟩, [agent0], 100, none⟩

/-- A concrete repository holding `game0`. -/
def repo0 : RepoState := ⟨[("g1", game0)], 0, 0⟩

/-- The agent produced by `generateAgent "cand-1" none 20 rngW`
(precomputed run of the generator on the `rngW` stream). -/
def agentW : Agent :=
  ⟨"cand-1", "Lumen Core", "Marketing",
    [("technical", 4), ("creativity", 4), ("communication", 4),
     ("organisation", 4), ("autonomy", 4)],
    ["technical", "autonomy"], ["creativity"],
    4/5, 88000, "medium", ["collaboratif", "innovant", "stable"], 65, 70⟩

/-- Motivation/stability bounds of `domain.Agent` (pydantic
`Field(ge=0, le=100)`); the invariant of claim C3. -/
def AgentOK (a : Agent) : Prop :=
  0 ≤ a.motivation ∧ a.motivation ≤ 100 ∧ 0 ≤ a.stability ∧ a.stability ≤ 100

instance (a : Agent) : Decidable (AgentOK a) := by
  unfold AgentOK; infer_instance

/-- **C5** — For every roster, extra-costs value and randomness state, the
`BusinessResults` produced by `_compute_results` satisfies
`net = round(revenue - costs, 2)` where `revenue` and `costs` are the
already-rounded fields of the same result. -/
theorem computeResults_net_eq_round_revenue_sub_costs
    (agents : List Agent) (extraCosts : ℚ) (s : RngState) :
    (computeResults agents extraCosts s).1.net =
      round2 ((computeResults agents extraCosts s).1.revenue -
        (computeResults agents extraCosts s).1.costs) := by
  rfl

/-- **C6** — `_compute_results` is deterministic: two runs with equal
rosters, equal extra costs and randomness sources in identical states
return `BusinessResults` that agree in every field. -/
theorem computeResults_deterministic
    (a₁ a₂ : List Agent) (e₁ e₂ : ℚ) (s₁ s₂ : RngState)
    (ha : a₁ = a₂) (he : e₁ = e₂) (hs : s₁ = s₂) :
    (computeResults a₁ e₁ s₁).1.revenue = (computeResults a₂ e₂ s₂).1.revenue ∧
    (computeResults a₁ e₁ s₁).1.costs = (computeResults a₂ e₂ s₂).1.costs ∧
    (computeResults a₁ e₁ s₁).1.net = (computeResults a₂ e₂ s₂).1.net ∧
    (computeResults a₁ e₁ s₁).1.clients = (computeResults a₂ e₂ s₂).1.clients ∧
    (computeResults a₁ e₁ s₁).1.errors = (computeResults a₂ e₂ s₂).1.errors ∧
    (computeResults a₁ e₁ s₁).1.innovations =
      (computeResults a₂ e₂ s₂).1.innovations := by
  subst ha; subst he; subst hs
  exact ⟨rfl, rfl, rfl, rfl, rfl, rfl⟩

/-- **C6 witness** — determinism instantiated at a concrete roster, extra
cost and randomness state. -/
theorem computeResults_deterministic_witness :
    (computeResults [agent0] 0 rngW).1.revenue =
      (computeResults [agent0] 0 rngW).1.revenue ∧
    (computeResults [agent0] 0 rngW).1.costs =
      (computeResults [agent0] 0 rngW).1.costs ∧
    (computeResults [agent0] 0 rngW).1.net =
      (computeResults [agent0] 0 rngW).1.net ∧
    (computeResults [agent0] 0 rngW).1.clients =
      (computeResults [agent0] 0 rngW).1.clients ∧
    (computeResults [agent0] 0 rngW).1.errors =
      (computeResults [agent0] 0 rngW).1.errors ∧
    (computeResults [agent0] 0 rngW).1.innovations =
      (computeResults [agent0] 0 rngW).1.innovations :=
  computeResults_deterministic [agent0] [agent0] 0 0 rngW rngW rfl rfl rfl

/-! ### Association-list lemmas -/

theorem alookup_cons {α : Type} (p : String × α) (l : List (String × α))
    (k : String) :
    alookup (p :: l) k = if p.1 = k then some p.2 else alookup l k := by
  unfold alookup
  by_cases h : p.1 = k
  · rw [List.find?_cons_of_pos _ (by simp [h]), if_pos h]
    rfl
  · rw [List.find?_cons_of_neg _ (by simp [h]), if_neg h]

theorem alookup_append_of_none {α : Type} (l₁ l₂ : List (String × α))
    (k : String) (h : alookup l₁ k = none) :
    alookup (l₁ ++ l₂) k = alookup l₂ k := by
  induction l₁ with
  | nil => rfl
  | cons p rest ih =>
    rw [alookup_cons] at h
    by_cases hp : p.1 = k
    · rw [if_pos hp] at h; cases h
    · rw [if_neg hp] at h
      rw [List.cons_append, alookup_cons, if_neg hp]
      exact ih h

theorem alookup_map_pair (pre post : List Agent) (a : Agent)
    (hpre : ∀ x ∈ pre, x.id ≠ a.id) :
    alookup ((pre ++ a :: post).map (fun x => (x.id, x))) a.id = some a := by
  induction pre with
  | nil =>
    rw [List.nil_append, List.map_cons, alookup_cons, if_pos rfl]
  | cons x rest ih =>
    rw [List.cons_append, List.map_cons, alookup_cons,
      if_neg (hpre x (List.mem_cons_self _ _))]
    exact ih (fun y hy => hpre y (List.mem_cons_of_mem _ hy))

theorem foldl_aput_eq (agents : List Agent) :
    ∀ (m : List (String × Agent)),
    (∀ a ∈ agents, alookup m a.id = none) → (agents.map Agent.id).Nodup →
    agents.foldl (fun acc a => aput acc a.id a) m =
      m ++ agents.map (fun a => (a.id, a)) := by
  induction agents with
  | nil => intro m _ _; simp
  | cons a rest ih =>
    intro m hm hnd
    rw [List.foldl_cons]
    have h1 : aput m a.id a = m ++ [(a.id, a)] := by
      unfold aput
      rw [hm a (List.mem_cons_self _ _)]
      rfl
    rw [List.map_cons, List.nodup_cons] at hnd
    have hm' : ∀ b ∈ rest, alookup (m ++ [(a.id, a)]) b.id = none := by
      intro b hb
      rw [alookup_append_of_none m _ _ (hm b (List.mem_cons_of_mem _ hb)),
        alookup_cons, if_neg]
      · rfl
      · intro he
        apply hnd.1
        rw [show a.id = b.id from he]
        exact List.mem_map_of_mem Agent.id hb
    rw [h1, ih (m ++ [(a.id, a)]) hm' hnd.2]
    simp

theorem dictOfAgents_eq (agents : List Agent)
    (h : (agents.map Agent.id).Nodup) :
    dictOfAgents agents = agents.map (fun a => (a.id, a)) := by
  unfold dictOfAgents
  rw [foldl_aput_eq agents [] (fun a _ => rfl) h]
  rfl

theorem adel_map_pair_of_ne (l : List Agent) (t : String)
    (h : ∀ x ∈ l, x.id ≠ t) :
    adel (l.map (fun a => (a.id, a))) t = l.map (fun a => (a.id, a)) := by
  unfold adel
  rw [List.filter_eq_self]
  intro p hp
  rcases List.mem_map.mp hp with ⟨x, hx, rfl⟩
  simp [h x hx]

theorem adel_map_pair (pre post : List Agent) (a : Agent)
    (hpre : ∀ x ∈ pre, x.id ≠ a.id) (hpost : ∀ x ∈ post, x.id ≠ a.id) :
    adel ((pre ++ a :: post).map (fun x => (x.id, x))) a.id =
      (pre ++ post).map (fun x => (x.id, x)) := by
  have h1 := adel_map_pair_of_ne pre a.id hpre
  have h2 := adel_map_pair_of_ne post a.id hpost
  unfold adel at h1 h2 ⊢
  rw [List.map_append, List.filter_append, List.map_cons, List.filter_cons,
    List.map_append, h1, h2]
  simp

theorem avalues_map_pair (l : List Agent) :
    avalues (l.map (fun a => (a.id, a))) = l := by
  unfold avalues
  rw [List.map_map]
  exact List.map_id l

/-! ### C2: firing an agent -/

theorem actionStep_fire (m : List (String × Agent)) (t : String)
    (agent : Agent) (notes : List String) (extra : ℚ)
    (h : alookup m t = some agent) :
    actionStep m ⟨t, "fire", none⟩ notes extra =
      .ok (adel m agent.id, notes ++ [agent.name ++ " licencié(e)"],
        extra + (agent.salary : ℚ) * (25/100)) := by
  unfold actionStep
  rw [show alookup m (ManagerAction.mk t "fire" none).agent_id =
      some agent from h]
  dsimp only
  rw [if_neg (by decide), if_neg (by decide), if_neg (by decide),
    if_pos (by decide)]

/-- **C2** — For every roster with distinct agent ids and every `fire`
action whose target id is in the roster, resolving the batch removes
exactly that agent (all others unchanged, in order) and increases
`extra_costs` by exactly `0.25 ×` that agent's salary. -/
theorem fire_removes_agent_and_charges_severance (pre post : List Agent)
    (a : Agent) (hnd : ((pre ++ a :: post).map Agent.id).Nodup) :
    resolveActions (pre ++ a :: post) [⟨a.id, "fire", none⟩] =
      .ok (pre ++ post, [a.name ++ " licencié(e)"],
        (a.salary : ℚ) * (25/100)) := by
  have hnd' := hnd
  rw [List.map_append, List.map_cons, List.nodup_append] at hnd'
  have hpre : ∀ x ∈ pre, x.id ≠ a.id := by
    intro x hx he
    exact hnd'.2.2 (List.mem_map_of_mem Agent.id hx)
      (he ▸ List.mem_cons_self _ _)
  have hpost : ∀ x ∈ post, x.id ≠ a.id := by
    intro x hx he
    exact (List.nodup_cons.mp hnd'.2.1).1 (he ▸ List.mem_map_of_mem Agent.id hx)
  have hstep := actionStep_fire ((pre ++ a :: post).map (fun x => (x.id, x)))
    a.id a [] 0 (alookup_map_pair pre post a hpre)
  unfold resolveActions actionsLoop
  rw [dictOfAgents_eq _ hnd, hstep]
  show Except.ok
      (avalues (adel ((pre ++ a :: post).map (fun x => (x.id, x))) a.id),
        [] ++ [a.name ++ " licencié(e)"], 0 + (a.salary : ℚ) * (25/100)) = _
  rw [adel_map_pair pre post a hpre hpost, avalues_map_pair]
  norm_num

/-- **C2 witness** — firing the only agent (salary 60000) empties the
roster and charges 15000 severance. -/
theorem fire_removes_agent_and_charges_severance_witness :
    resolveActions [agent0] [⟨"a1", "fire", none⟩] =
      .ok ([], ["Nova Core licencié(e)"], 15000) := by
  have h := fire_removes_agent_and_charges_severance [] [] agent0 (by decide)
  simp only [agent0] at h
  norm_num at h
  exact h

/-! ### C3: motivation/stability bounds are preserved -/

theorem pyClamp_mem (v : ℚ) : 0 ≤ pyClamp v 0 100 ∧ pyClamp v 0 100 ≤ 100 :=
  ⟨le_max_left _ _, max_le (by norm_num) (min_le_right _ _)⟩

theorem mem_aset {α : Type} (l : List (String × α)) (k : String) (v : α)
    (p : String × α) (hp : p ∈ aset l k v) : p = (k, v) ∨ p ∈ l := by
  unfold aset at hp
  rcases List.mem_map.mp hp with ⟨q, hq, hfq⟩
  by_cases h : q.1 = k
  · rw [if_pos h] at hfq
    exact Or.inl hfq.symm
  · rw [if_neg h] at hfq
    exact Or.inr (hfq ▸ hq)

theorem mem_adel {α : Type} (l : List (String × α)) (k : String)
    (p : String × α) (hp : p ∈ adel l k) : p ∈ l :=
  List.mem_of_mem_filter hp

theorem alookup_ok (m : List (String × Agent)) (k : String) (agent : Agent)
    (hm : ∀ p ∈ m, AgentOK p.2) (h : alookup m k = some agent) :
    AgentOK agent := by
  unfold alookup at h
  cases hf : m.find? (fun p => decide (p.1 = k)) with
  | none => rw [hf] at h; cases h
  | some q =>
    rw [hf] at h
    have hq : q.2 = agent := by injection h
    exact hq ▸ hm q (List.mem_of_find?_eq_some hf)

theorem actionStep_ok_values (m : List (String × Agent))
    (act : ManagerAction) (notes : List String) (extra : ℚ)
    (out : List (String × Agent) × List String × ℚ)
    (hm : ∀ p ∈ m, AgentOK p.2) (h : actionStep m act notes extra = .ok out) :
    ∀ p ∈ out.1, AgentOK p.2 := by
  unfold actionStep at h
  cases hl : alookup m act.agent_id with
  | none => rw [hl] at h; exact Except.noConfusion h
  | some agent =>
    rw [hl] at h
    have hag : AgentOK agent := alookup_ok m act.agent_id agent hm hl
    dsimp only at h
    split_ifs at h with h1 h2 h3 h4 h5
    · injection h with h'
      intro p hp
      rw [← h'] at hp
      rcases mem_aset _ _ _ _ hp with heq | hin
      · rw [heq]
        exact ⟨(pyClamp_mem _).1, (pyClamp_mem _).2,
          (pyClamp_mem _).1, (pyClamp_mem _).2⟩
      · exact hm p hin
    · injection h with h'
      intro p hp
      rw [← h'] at hp
      rcases mem_aset _ _ _ _ hp with heq | hin
      · rw [heq]
        exact ⟨(pyClamp_mem _).1, (pyClamp_mem _).2, hag.2.2.1, hag.2.2.2⟩
      · exact hm p hin
    · injection h with h'
      intro p hp
      rw [← h'] at hp
      rcases mem_aset _ _ _ _ hp with heq | hin
      · rw [heq]
        exact ⟨(pyClamp_mem _).1, (pyClamp_mem _).2, hag.2.2.1, hag.2.2.2⟩
      · exact hm p hin
    · injection h with h'
      intro p hp
      rw [← h'] at hp
      exact hm p (mem_adel _ _ _ hp)
    · injection h with h'
      intro p hp
      rw [← h'] at hp
      rcases mem_aset _ _ _ _ hp with heq | hin
      · rw [heq]
        exact ⟨(pyClamp_mem _).1, (pyClamp_mem _).2,
          (pyClamp_mem _).1, (pyClamp_mem _).2⟩
      · exact hm p hin

theorem actionsLoop_ok_values (acts : List ManagerAction) :
    ∀ (m : List (String × Agent)) (notes : List String) (extra : ℚ)
      (out : List (String × Agent) × List String × ℚ),
    (∀ p ∈ m, AgentOK p.2) → actionsLoop m acts notes extra = .ok out →
    ∀ p ∈ out.1, AgentOK p.2 := by
  induction acts with
  | nil =>
    intro m notes extra out hm h
    injection h with h'
    intro p hp
    rw [← h'] at hp
    exact hm p hp
  | cons act rest ih =>
    intro m notes extra out hm h
    unfold actionsLoop at h
    cases hs : actionStep m act notes extra with
    | error e => rw [hs] at h; exact Except.noConfusion h
    | ok mid =>
      rw [hs] at h
      exact ih mid.1 mid.2.1 mid.2.2 out
        (actionStep_ok_values m act notes extra mid hm hs) h

theorem mem_dictOfAgents_foldl (agents : List Agent) :
    ∀ (m : List (String × Agent)) (p : String × Agent),
    p ∈ agents.foldl (fun acc a => aput acc a.id a) m →
    p ∈ m ∨ p.2 ∈ agents := by
  induction agents with
  | nil => intro m p hp; exact Or.inl hp
  | cons a rest ih =>
    intro m p hp
    rw [List.foldl_cons] at hp
    rcases ih (aput m a.id a) p hp with hmem | hrest
    · unfold aput at hmem
      by_cases hs : (alookup m a.id).isSome
      · rw [if_pos hs] at hmem
        rcases mem_aset _ _ _ _ hmem with heq | hin
        · exact Or.inr (by rw [heq]; exact List.mem_cons_self _ _)
        · exact Or.inl hin
      · rw [if_neg hs] at hmem
        rcases List.mem_append.mp hmem with hin | hone
        · exact Or.inl hin
        · rcases List.mem_singleton.mp hone with heq
          exact Or.inr (by rw [heq]; exact List.mem_cons_self _ _)
    · exact Or.inr (List.mem_cons_of_mem _ hrest)

/-- **C3** — If every agent of the roster has motivation and stability in
`[0,100]`, then after any successfully resolved sequence of manager
actions (each of the five kinds — `assign_tasks`, `train`, `promote`,
`fire`, `support` — is a case of the per-step proof), every agent of the
resulting roster still has motivation and stability in `[0,100]`. -/
theorem actions_preserve_motivation_stability_bounds (agents : List Agent)
    (acts : List ManagerAction) (out : List Agent × List String × ℚ)
    (hag : ∀ a ∈ agents, AgentOK a) (h : resolveActions agents acts = .ok out) :
    ∀ a ∈ out.1, AgentOK a := by
  unfold resolveActions at h
  cases hl : actionsLoop (dictOfAgents agents) acts [] 0 with
  | error e => rw [hl] at h; exact Except.noConfusion h
  | ok res =>
    rw [hl] at h
    injection h with h'
    intro a ha
    rw [← h'] at ha
    rcases List.mem_map.mp ha with ⟨p, hp, hpa⟩
    have hminit : ∀ p ∈ dictOfAgents agents, AgentOK p.2 := by
      intro q hq
      rcases mem_dictOfAgents_foldl agents [] q hq with hnil | hmem
      · cases hnil
      · exact hag q.2 hmem
    exact hpa ▸ actionsLoop_ok_values acts _ [] 0 res hminit hl p hp

/-- **C3 witness** — the invariant applied to a concrete roster and a
concrete `support` action. -/
theorem actions_preserve_motivation_stability_bounds_witness :
    AgentOK { agent0 with motivation := 69, stability := 82 } :=
  actions_preserve_motivation_stability_bounds [agent0]
    [⟨"a1", "support", none⟩]
    ([{ agent0 with motivation := 69, stability := 82 }],
      ["Coaching/soutien pour Nova Core"], 0)
    (by norm_num [agent0, AgentOK])
    (by
      simp [resolveActions, dictOfAgents, actionsLoop, actionStep, aput, aset,
        adel, alookup, avalues, agent0, pyClamp, List.find?]
      norm_num)
    { agent0 with motivation := 69, stability := 82 }
    (List.mem_singleton.mpr rfl)

/-! ### C1, C7, C8: the service layer never persists -/

theorem startGame_fails_validation (llm : LLM) (r : RepoState)
    (rng : RngState) (payload : StartGameRequest) (g : String) :
    (startGame llm r rng payload g).1 =
      .error (.validation ["energy_total", "energy_used"]) ∧
    (startGame llm r rng payload g).2.1 = r :=
  ⟨rfl, rfl⟩

theorem applyActions_no_persist (llm : LLM) (r : RepoState) (rng : RngState)
    (payload : ActionRequest) :
    isOkE (applyActions llm r rng payload).1 = false ∧
    (applyActions llm r rng payload).2.1 = r := by
  unfold applyActions
  split
  · exact ⟨rfl, rfl⟩
  · split
    · exact ⟨rfl, rfl⟩
    · exact ⟨rfl, rfl⟩

theorem applyActions_validation_error (llm : LLM) (r : RepoState)
    (rng : RngState) (payload : ActionRequest) (state : GameState)
    (out : List Agent × List String × ℚ)
    (hg : repoGet r payload.game_id = .ok state)
    (hr : resolveActions state.agents payload.actions = .ok out) :
    (applyActions llm r rng payload).1 =
      .error (.validation ["energy_total"]) := by
  unfold applyActions
  rw [hg]
  dsimp only
  rw [hr]
  rfl

/-- **C1** — Both public operations are dead ends in this revision: for
every input, `start_game` fails with the pydantic validation error naming
the `DayReport` fields `energy_total` and `energy_used` missing from the
`_build_report` constructor call, and the repository is left untouched;
`apply_actions` never returns successfully and never persists, and on
every input whose game id resolves and whose action batch resolves it
fails with the pydantic validation error naming the `GameState` field
`energy_total` missing from the next-state constructor call. -/
theorem startGame_applyActions_fail_before_persist :
    (∀ (llm : LLM) (r : RepoState) (rng : RngState)
      (payload : StartGameRequest) (g : String),
      (startGame llm r rng payload g).1 =
        .error (.validation ["energy_total", "energy_used"]) ∧
      (startGame llm r rng payload g).2.1 = r) ∧
    (∀ (llm : LLM) (r : RepoState) (rng : RngState) (payload : ActionRequest),
      isOkE (applyActions llm r rng payload).1 = false ∧
      (applyActions llm r rng payload).2.1 = r) ∧
    (∀ (llm : LLM) (r : RepoState) (rng : RngState) (payload : ActionRequest)
      (state : GameState) (out : List Agent × List String × ℚ),
      repoGet r payload.game_id = .ok state →
      resolveActions state.agents payload.actions = .ok out →
      (applyActions llm r rng payload).1 =
        .error (.validation ["energy_total"])) :=
  ⟨fun llm r rng payload g => startGame_fails_validation llm r rng payload g,
   fun llm r rng payload => applyActions_no_persist llm r rng payload,
   fun llm r rng payload state out hg hr =>
     applyActions_validation_error llm r rng payload state out hg hr⟩

/-- **C1 witness** — the failures observed on concrete inputs. -/
theorem startGame_applyActions_fail_before_persist_witness :
    (startGame llmStub repo0 rngW ⟨"Nova"⟩ "g9").1 =
      .error (.validation ["energy_total", "energy_used"]) ∧
    isOkE (applyActions llmStub repo0 rngW
      ⟨"g1", [⟨"a1", "support", none⟩]⟩).1 = false ∧
    (applyActions llmStub repo0 rngW ⟨"g1", [⟨"a1", "support", none⟩]⟩).1 =
      .error (.validation ["energy_total"]) := by
  refine ⟨(startGame_applyActions_fail_before_persist.1 llmStub repo0 rngW
      ⟨"Nova"⟩ "g9").1,
    (startGame_applyActions_fail_before_persist.2.1 llmStub repo0 rngW
      ⟨"g1", [⟨"a1", "support", none⟩]⟩).1,
    startGame_applyActions_fail_before_persist.2.2 llmStub repo0 rngW
      ⟨"g1", [⟨"a1", "support", none⟩]⟩ game0
      ([{ agent0 with motivation := 69, stability := 82 }],
        ["Coaching/soutien pour Nova Core"], 0) rfl ?_⟩
  simp [resolveActions, dictOfAgents, actionsLoop, actionStep, aput, aset,
    adel, alookup, avalues, game0, agent0, pyClamp, List.find?]
  norm_num

/-- **C7** — `apply_actions` is atomic: whenever the command fails (it in
fact always fails — unknown game id, unknown agent id, unrecognized action
kind, or the validation error of C1 — all before any write), the state the
repository holds for that game id afterwards equals the state held before,
and `repository.save` was not called (the save counter is unchanged). -/
theorem applyActions_failure_leaves_repository_unchanged
    (llm : LLM) (r : RepoState) (rng : RngState) (payload : ActionRequest)
    (_hfail : isOkE (applyActions llm r rng payload).1 = false) :
    repoGet (applyActions llm r rng payload).2.1 payload.game_id =
      repoGet r payload.game_id ∧
    (applyActions llm r rng payload).2.1.saves = r.saves := by
  rw [(applyActions_no_persist llm r rng payload).2]
  exact ⟨rfl, rfl⟩

/-- **C7 witness** — atomicity observed on a concrete failing command. -/
theorem applyActions_failure_leaves_repository_unchanged_witness :
    repoGet (applyActions llmStub repo0 rngW
      ⟨"g1", [⟨"a1", "support", none⟩]⟩).2.1 "g1" = repoGet repo0 "g1" ∧
    (applyActions llmStub repo0 rngW
      ⟨"g1", [⟨"a1", "support", none⟩]⟩).2.1.saves = repo0.saves :=
  applyActions_failure_leaves_repository_unchanged llmStub repo0 rngW
    ⟨"g1", [⟨"a1", "support", none⟩]⟩ rfl

/-- **C8 (code bug)** — the day counter can never advance: on a stored
game at day 1 with a single valid `support` action, `apply_actions` raises
the `GameState` validation error (missing `energy_total`) instead of
returning a day-2 state, and the repository still holds the day-1 state
(the repository's own test `test_apply_actions_updates_day_and_agents`
expects day 2). -/
theorem applyActions_never_returns_next_day :
    game0.day = 1 ∧
    repoGet repo0 "g1" = .ok game0 ∧
    (applyActions llmStub repo0 rngW ⟨"g1", [⟨"a1", "support", none⟩]⟩).1 =
      .error (.validation ["energy_total"]) ∧
    (applyActions llmStub repo0 rngW ⟨"g1", [⟨"a1", "support", none⟩]⟩).2.1 =
      repo0 :=
  ⟨rfl, rfl, rfl, rfl⟩

/-! ### C4: training with focus "marketing" -/

/-- **C4 (code bug)** — `"marketing"` is not a competency, so a `train`
action with `focus="marketing"` on an agent with the standard skills
leaves every skill unchanged (only motivation `+6` and the 800 cost
apply), and the enclosing `apply_actions` fails with the missing
`energy_total` validation error before any state with an advanced day is
returned or persisted. -/
theorem train_marketing_changes_no_skill_and_no_day :
    alookup agent0.skills "marketing" = none ∧
    resolveActions [agent0] [⟨"a1", "train", some "marketing"⟩] =
      .ok ([{ agent0 with motivation := 71 }],
        ["Formation marketing pour Nova Core"], 800) ∧
    ({ agent0 with motivation := 71 } : Agent).skills = agent0.skills ∧
    (applyActions llmStub repo0 rngW
      ⟨"g1", [⟨"a1", "train", some "marketing"⟩]⟩).1 =
      .error (.validation ["energy_total"]) := by
  refine ⟨rfl, ?_, rfl, rfl⟩
  simp [resolveActions, dictOfAgents, actionsLoop, actionStep, aput, aset,
    adel, alookup, avalues, agent0, pyClamp, List.find?]
  norm_num

/-! ### C10: hiring a candidate (spec-modelled) -/

theorem aset_cons {α : Type} (p : String × α) (l : List (String × α))
    (k : String) (v : α) :
    aset (p :: l) k v = (if p.1 = k then (k, v) else p) :: aset l k v :=
  rfl

theorem alookup_aset_self {α : Type} (l : List (String × α)) (k : String)
    (v : α) (h : (alookup l k).isSome) :
    alookup (aset l k v) k = some v := by
  induction l with
  | nil => simp [alookup, List.find?] at h
  | cons p rest ih =>
    rw [aset_cons]
    by_cases hp : p.1 = k
    · rw [if_pos hp, alookup_cons, if_pos rfl]
    · rw [if_neg hp, alookup_cons, if_neg hp]
      rw [alookup_cons, if_neg hp] at h
      exact ih h

theorem alookup_aput_self {α : Type} (l : List (String × α)) (k : String)
    (v : α) : alookup (aput l k v) k = some v := by
  unfold aput
  by_cases h : (alookup l k).isSome
  · rw [if_pos h]
    exact alookup_aset_self l k v h
  · rw [if_neg h]
    have hnone : alookup l k = none := Option.not_isSome_iff_eq_none.mp h
    rw [alookup_append_of_none l _ k hnone, alookup_cons, if_pos rfl]

/-- **C10** (spec-modelled) — hiring a previously generated candidate
appends it to the persisted roster: the returned state has exactly one
more agent, the day counter is unchanged, the repository now holds the
updated state under the game id, and `repository.save` was called exactly
once. -/
theorem hireCandidate_appends_and_persists (r : RepoState) (gid : String)
    (cand : Agent) (state : GameState)
    (hget : repoGet r gid = .ok state) (hkey : state.game_id = gid) :
    (hireCandidate r ⟨gid, cand⟩).1 =
      .ok { state with agents := state.agents ++ [cand] } ∧
    ({ state with agents := state.agents ++ [cand] } : GameState).agents.length
      = state.agents.length + 1 ∧
    ({ state with agents := state.agents ++ [cand] } : GameState).day
      = state.day ∧
    repoGet (hireCandidate r ⟨gid, cand⟩).2 gid =
      .ok { state with agents := state.agents ++ [cand] } ∧
    (hireCandidate r ⟨gid, cand⟩).2.saves = r.saves + 1 := by
  unfold hireCandidate
  rw [hget]
  refine ⟨rfl, by simp, rfl, ?_, rfl⟩
  unfold repoGet repoSave
  dsimp only
  rw [hkey, alookup_aput_self]

/-- **C10 witness** — hiring a concrete candidate into the stored game. -/
theorem hireCandidate_appends_and_persists_witness :
    (hireCandidate repo0 ⟨"g1", agentW⟩).1 =
      .ok { game0 with agents := game0.agents ++ [agentW] } ∧
    ({ game0 with agents := game0.agents ++ [agentW] } : GameState).agents.length
      = game0.agents.length + 1 ∧
    ({ game0 with agents := game0.agents ++ [agentW] } : GameState).day
      = game0.day ∧
    repoGet (hireCandidate repo0 ⟨"g1", agentW⟩).2 "g1" =
      .ok { game0 with agents := game0.agents ++ [agentW] } ∧
    (hireCandidate repo0 ⟨"g1", agentW⟩).2.saves = repo0.saves + 1 :=
  hireCandidate_appends_and_persists repo0 "g1" agentW game0 rfl rfl

/-! ### C9: the candidate generator -/

theorem randIndex_lt (n : ℕ) (hn : 0 < n) (s : RngState) :
    (randIndex n s).1 < n := by
  unfold randIndex nextUnit
  obtain ⟨h0, h1⟩ := s.src.unit_bounded s.upos
  dsimp only
  have hn' : (0 : ℚ) < n := by exact_mod_cast hn
  have hun : s.src.unit s.upos * (n : ℚ) < (n : ℚ) := by
    calc s.src.unit s.upos * (n : ℚ) < 1 * n :=
          mul_lt_mul_of_pos_right h1 hn'
      _ = n := one_mul _
  have hf : ⌊s.src.unit s.upos * (n : ℚ)⌋ < (n : ℤ) := by
    rw [Int.floor_lt]
    exact_mod_cast hun
  have h0f : 0 ≤ ⌊s.src.unit s.upos * (n : ℚ)⌋ :=
    Int.floor_nonneg.mpr (mul_nonneg h0 (by positivity))
  omega

theorem rngChoice_mem (xs : List String) (hxs : xs ≠ []) (s : RngState) :
    (rngChoice xs s).1 ∈ xs := by
  unfold rngChoice
  dsimp only
  have hlt : (randIndex xs.length s).1 < xs.length :=
    randIndex_lt _ (List.length_pos.mpr hxs) s
  rw [List.getD_eq_getElem?_getD, List.getElem?_eq_getElem hlt]
  simpa using List.getElem_mem hlt

theorem alookup_mem_entry {α : Type} (l : List (String × α)) (k : String)
    (v : α) (h : alookup l k = some v) : (k, v) ∈ l := by
  unfold alookup at h
  cases hf : l.find? (fun p => decide (p.1 = k)) with
  | none => rw [hf] at h; cases h
  | some q =>
    rw [hf] at h
    have hq2 : q.2 = v := by injection h
    have hq1 : q.1 = k := by
      have := List.find?_some hf
      simpa using this
    have hq := List.mem_of_find?_eq_some hf
    rw [← hq1, ← hq2]
    exact hq

theorem alookup_isSome_of_key_mem {α : Type} (l : List (String × α))
    (k : String) (h : k ∈ l.map Prod.fst) : ∃ v, alookup l k = some v := by
  induction l with
  | nil => simp at h
  | cons p rest ih =>
    rw [List.map_cons] at h
    rw [alookup_cons]
    by_cases hp : p.1 = k
    · rw [if_pos hp]; exact ⟨p.2, rfl⟩
    · rw [if_neg hp]
      apply ih
      rcases List.mem_cons.mp h with he | hm
      · exact absurd he.symm hp
      · exact hm

theorem aset_map_fst {α : Type} (l : List (String × α)) (k : String)
    (v : α) : (aset l k v).map Prod.fst = l.map Prod.fst := by
  unfold aset
  rw [List.map_map]
  apply List.map_congr_left
  intro p _
  by_cases hp : p.1 = k
  · simp [Function.comp, hp]
  · simp [Function.comp, hp]

theorem aset_eq_of_not_mem {α : Type} (l : List (String × α)) (k : String)
    (v : α) (h : k ∉ l.map Prod.fst) : aset l k v = l := by
  unfold aset
  conv_rhs => rw [← List.map_id l]
  apply List.map_congr_left
  intro p hp
  rw [if_neg]
  · rfl
  · intro he
    exact h (he ▸ List.mem_map_of_mem Prod.fst hp)

theorem asum_cons (p : String × ℚ) (l : List (String × ℚ)) :
    asum (p :: l) = p.2 + asum l := by
  unfold asum
  rw [List.map_cons, List.sum_cons]

theorem asum_aset (l : List (String × ℚ)) (k : String) (v w : ℚ)
    (hnd : (l.map Prod.fst).Nodup) (h : alookup l k = some w) :
    asum (aset l k v) = asum l - w + v := by
  induction l with
  | nil => simp [alookup, List.find?] at h
  | cons p rest ih =>
    rw [List.map_cons, List.nodup_cons] at hnd
    rw [alookup_cons] at h
    rw [aset_cons]
    by_cases hp : p.1 = k
    · rw [if_pos hp] at h ⊢
      have hw : p.2 = w := by injection h
      have hrest : aset rest k v = rest :=
        aset_eq_of_not_mem rest k v (hp ▸ hnd.1)
      rw [asum_cons, asum_cons, hrest]
      dsimp only
      rw [hw]
      ring
    · rw [if_neg hp] at h ⊢
      rw [asum_cons, asum_cons, ih hnd.2 h]
      ring

theorem skillsLoop_spec (fuel : ℕ) :
    ∀ (stats : List (String × ℚ)) (rem : ℕ) (s : RngState)
      (out : List (String × ℚ) × RngState),
    stats.map Prod.fst = COMPETENCY_NAMES →
    (∀ p ∈ stats, (1 : ℚ) ≤ p.2 ∧ p.2 ≤ 10 ∧ ∃ n : ℕ, p.2 = n) →
    asum stats + (rem : ℚ) = 20 →
    skillsLoop fuel stats rem s = some out →
    out.1.map Prod.fst = COMPETENCY_NAMES ∧
    (∀ p ∈ out.1, (1 : ℚ) ≤ p.2 ∧ p.2 ≤ 10) ∧ asum out.1 = 20 := by
  induction fuel with
  | zero =>
    intro stats rem s out hk hb hs h
    cases rem with
    | zero =>
      injection h with h'
      rw [← h']
      exact ⟨hk, fun p hp => ⟨(hb p hp).1, (hb p hp).2.1⟩, by simpa using hs⟩
    | succ r => exact Option.noConfusion h
  | succ f ih =>
    intro stats rem s out hk hb hs h
    cases rem with
    | zero =>
      injection h with h'
      rw [← h']
      exact ⟨hk, fun p hp => ⟨(hb p hp).1, (hb p hp).2.1⟩, by simpa using hs⟩
    | succ r =>
      rw [show skillsLoop (f + 1) stats (r + 1) s =
          skillsLoop f (skillsStep stats (r + 1) s).1
            (skillsStep stats (r + 1) s).2.1 (skillsStep stats (r + 1) s).2.2
          from rfl] at h
      rw [show skillsStep stats (r + 1) s =
          (if (alookup stats (rngChoice COMPETENCY_NAMES s).1).getD 0 < 10
            then (aset stats (rngChoice COMPETENCY_NAMES s).1
                ((alookup stats (rngChoice COMPETENCY_NAMES s).1).getD 0 + 1),
              r, (rngChoice COMPETENCY_NAMES s).2)
            else (stats, r + 1, (rngChoice COMPETENCY_NAMES s).2))
          from rfl] at h
      have hkey : (rngChoice COMPETENCY_NAMES s).1 ∈ COMPETENCY_NAMES :=
        rngChoice_mem COMPETENCY_NAMES (by decide) s
      obtain ⟨w, hw⟩ := alookup_isSome_of_key_mem stats
        (rngChoice COMPETENCY_NAMES s).1 (by rw [hk]; exact hkey)
      obtain ⟨hw1, hw10, nw, hnw⟩ := hb _ (alookup_mem_entry _ _ _ hw)
      dsimp only at hw1 hw10 hnw
      rw [hw] at h
      dsimp only [Option.getD] at h
      split_ifs at h with hlt
      · -- one point granted to the chosen competency
        have hnd : (stats.map Prod.fst).Nodup := by rw [hk]; decide
        refine ih _ r _ out ?_ ?_ ?_ h
        · rw [aset_map_fst]; exact hk
        · intro p hp
          rcases mem_aset _ _ _ _ hp with heq | hin
          · rw [heq]
            dsimp only
            have hn10 : nw < 10 := by
              have : (nw : ℚ) < 10 := by rw [← hnw]; exact hlt
              exact_mod_cast this
            refine ⟨by linarith, ?_, nw + 1, by rw [hnw]; push_cast; ring⟩
            rw [hnw]
            have : (nw : ℚ) + 1 ≤ 10 := by exact_mod_cast hn10
            linarith
          · exact hb p hin
        · rw [asum_aset stats _ _ w hnd hw]
          push_cast at hs ⊢
          linarith
      · exact ih stats (r + 1) _ out hk hb hs h

theorem randomSkills_spec (fuel : ℕ) (s : RngState)
    (out : List (String × ℚ) × RngState) (h : randomSkills fuel s = some out) :
    out.1.map Prod.fst = COMPETENCY_NAMES ∧
    (∀ p ∈ out.1, (1 : ℚ) ≤ p.2 ∧ p.2 ≤ 10) ∧ asum out.1 = 20 := by
  unfold randomSkills at h
  refine skillsLoop_spec fuel _ _ s out ?_ ?_ ?_ h
  · rfl
  · intro p hp
    simp only [COMPETENCY_NAMES, List.map_cons, List.map_nil, List.mem_cons,
      List.not_mem_nil, or_false] at hp
    rcases hp with rfl | rfl | rfl | rfl | rfl <;>
      exact ⟨by norm_num, by norm_num, 1, by norm_num⟩
  · show asum (COMPETENCY_NAMES.map fun n => (n, (1 : ℚ))) +
      ((20 - COMPETENCY_NAMES.length : ℕ) : ℚ) = 20
    simp [asum, COMPETENCY_NAMES]
    norm_num

theorem sample2_cases (j1 j2 : ℕ) (h1 : j1 < 5) (h2 : j2 < 4)
    (st : List String)
    (hst : st = [COMPETENCY_NAMES.getD j1 "",
      (COMPETENCY_NAMES.set j1 (COMPETENCY_NAMES.getD 4 "")).getD j2 ""]) :
    st.length = 2 ∧ st.Nodup ∧ (∀ x ∈ st, x ∈ COMPETENCY_NAMES) ∧
    ((COMPETENCY_NAMES.filter (fun n => decide (n ∉ st))).take 1).length = 1 ∧
    (∀ x ∈ (COMPETENCY_NAMES.filter (fun n => decide (n ∉ st))).take 1,
      x ∈ COMPETENCY_NAMES ∧ x ∉ st) := by
  subst hst
  interval_cases j1 <;> interval_cases j2 <;> decide

theorem sample2_strengths_spec (s : RngState) :
    (sample2 COMPETENCY_NAMES s).1.length = 2 ∧
    (sample2 COMPETENCY_NAMES s).1.Nodup ∧
    (∀ x ∈ (sample2 COMPETENCY_NAMES s).1, x ∈ COMPETENCY_NAMES) ∧
    ((COMPETENCY_NAMES.filter
      (fun n => decide (n ∉ (sample2 COMPETENCY_NAMES s).1))).take 1).length
        = 1 ∧
    (∀ x ∈ (COMPETENCY_NAMES.filter
        (fun n => decide (n ∉ (sample2 COMPETENCY_NAMES s).1))).take 1,
      x ∈ COMPETENCY_NAMES ∧ x ∉ (sample2 COMPETENCY_NAMES s).1) := by
  have h1 : (randIndex COMPETENCY_NAMES.length s).1 < 5 :=
    randIndex_lt COMPETENCY_NAMES.length (by decide) s
  have h2 : (randIndex (COMPETENCY_NAMES.length - 1)
      (randIndex COMPETENCY_NAMES.length s).2).1 < 4 :=
    randIndex_lt (COMPETENCY_NAMES.length - 1) (by decide)
      (randIndex COMPETENCY_NAMES.length s).2
  exact sample2_cases _ _ h1 h2 _ rfl

theorem pyRound_mem (q : ℚ) : pyRound q = ⌊q⌋ ∨ pyRound q = ⌊q⌋ + 1 := by
  unfold pyRound
  dsimp only
  split_ifs
  · exact Or.inl rfl
  · exact Or.inr rfl
  · exact Or.inl rfl
  · exact Or.inr rfl

theorem productivity_bounds (x : RngState) :
    (6/10 : ℚ) ≤ round2 ((rngUniform (6/10) (11/10) x).1) ∧
    round2 ((rngUniform (6/10) (11/10) x).1) ≤ 11/10 ∧
    (round2 ((rngUniform (6/10) (11/10) x).1) * 100).den = 1 := by
  obtain ⟨h0, h1⟩ := x.src.unit_bounded x.upos
  unfold rngUniform nextUnit
  dsimp only
  have hq0 : (6/10 : ℚ) ≤ 6/10 + (11/10 - 6/10) * x.src.unit x.upos := by
    nlinarith
  have hq1 : 6/10 + (11/10 - 6/10) * x.src.unit x.upos < 11/10 := by
    nlinarith
  have h60 : (60 : ℤ) ≤ ⌊(6/10 + (11/10 - 6/10) * x.src.unit x.upos) * 100⌋ := by
    apply Int.le_floor.mpr
    push_cast
    linarith
  have h110 : ⌊(6/10 + (11/10 - 6/10) * x.src.unit x.upos) * 100⌋ < 110 := by
    apply Int.floor_lt.mpr
    push_cast
    linarith
  unfold round2
  rcases pyRound_mem ((6/10 + (11/10 - 6/10) * x.src.unit x.upos) * 100) with
    hcase | hcase <;> rw [hcase] <;> refine ⟨?_, ?_, ?_⟩
  · rw [le_div_iff (by norm_num : (0:ℚ) < 100)]
    have : ((60 : ℤ) : ℚ) ≤ _ := Int.cast_le.mpr h60
    push_cast at this ⊢
    linarith
  · rw [div_le_iff (by norm_num : (0:ℚ) < 100)]
    have : (⌊(6/10 + (11/10 - 6/10) * x.src.unit x.upos) * 100⌋ : ℚ) ≤ 109 := by
      have : ⌊(6/10 + (11/10 - 6/10) * x.src.unit x.upos) * 100⌋ ≤ 109 := by
        omega
      exact_mod_cast this
    push_cast at this ⊢
    linarith
  · rw [div_mul_cancel₀ _ (by norm_num : (100:ℚ) ≠ 0)]
    exact Rat.den_intCast _
  · rw [le_div_iff (by norm_num : (0:ℚ) < 100)]
    have : ((60 : ℤ) : ℚ) ≤ _ := Int.cast_le.mpr h60
    push_cast at this ⊢
    linarith
  · rw [div_le_iff (by norm_num : (0:ℚ) < 100)]
    have : (⌊(6/10 + (11/10 - 6/10) * x.src.unit x.upos) * 100⌋ : ℚ) ≤ 109 := by
      have : ⌊(6/10 + (11/10 - 6/10) * x.src.unit x.upos) * 100⌋ ≤ 109 := by
        omega
      exact_mod_cast this
    push_cast at this ⊢
    linarith
  · have hden : ((⌊(6/10 + (11/10 - 6/10) * x.src.unit x.upos) * 100⌋ + 1 : ℤ)
        : ℚ).den = 1 := Rat.den_intCast _
    rw [div_mul_cancel₀ _ (by norm_num : (100:ℚ) ≠ 0)]
    exact_mod_cast hden

/-- **C9** — Whenever `generate_agent` completes (the fuel bound of the
skills loop — the only possibly non-terminating part — is not hit), the
produced agent has exactly 2 distinct strength skills drawn from the
competency set, exactly 1 weakness disjoint from the strengths, a skills
mapping whose keys are exactly `COMPETENCY_NAMES` with every score in
`[1, 10]` and total exactly 20, a productivity in `[0.6, 1.1]` that is a
multiple of `1/100` (2-decimal rounding), motivation 65 and stability
70. -/
theorem generateAgent_spec (fresh : String) (salaryOverride : Option ℤ)
    (fuel : ℕ) (s : RngState) (a : Agent)
    (h : (generateAgent fresh salaryOverride fuel s).map Prod.fst = some a) :
    a.strengths.length = 2 ∧ a.strengths.Nodup ∧
    (∀ x ∈ a.strengths, x ∈ COMPETENCY_NAMES) ∧
    a.weaknesses.length = 1 ∧
    (∀ x ∈ a.weaknesses, x ∈ COMPETENCY_NAMES ∧ x ∉ a.strengths) ∧
    a.skills.map Prod.fst = COMPETENCY_NAMES ∧
    (∀ p ∈ a.skills, (1 : ℚ) ≤ p.2 ∧ p.2 ≤ 10) ∧ asum a.skills = 20 ∧
    (6/10 : ℚ) ≤ a.productivity ∧ a.productivity ≤ 11/10 ∧
    (a.productivity * 100).den = 1 ∧
    a.motivation = 65 ∧ a.stability = 70 := by
  cases salaryOverride <;>
  · unfold generateAgent at h
    dsimp only at h
    split at h
    · simp at h
    · rename_i pSkills heq
      rw [Option.map_some'] at h
      injection h with h'
      subst h'
      obtain ⟨hs1, hs2, hs3, hw1, hw2⟩ := sample2_strengths_spec s
      obtain ⟨hk1, hk2, hk3⟩ := randomSkills_spec fuel _ pSkills heq
      obtain ⟨hp1, hp2, hp3⟩ :=
        productivity_bounds (sample2 COMPETENCY_NAMES s).2
      exact ⟨hs1, hs2, hs3, hw1, hw2, hk1, hk2, hk3, hp1, hp2, hp3, rfl, rfl⟩

set_option maxHeartbeats 2000000 in
/-- **C9 witness** — a concrete completed generation run: on the `rngW`
stream the generator yields `agentW`, whose checked properties are the
binder-free parts of the specification. -/
theorem generateAgent_spec_witness :
    agentW.strengths.length = 2 ∧ agentW.strengths.Nodup ∧
    agentW.weaknesses.length = 1 ∧
    agentW.skills.map Prod.fst = COMPETENCY_NAMES ∧
    asum agentW.skills = 20 ∧
    (6/10 : ℚ) ≤ agentW.productivity ∧ agentW.productivity ≤ 11/10 ∧
    (agentW.productivity * 100).den = 1 ∧
    agentW.motivation = 65 ∧ agentW.stability = 70 := by
  have h := generateAgent_spec "cand-1" none 20 rngW agentW (by
    repeat
      first
        | rfl
        | simp [generateAgent, sample2, sample3, randomSkills, skillsLoop,
            skillsStep, randomName, randomRole, randomAutonomy, rngChoice,
            rngUniform, rngRandint, randIndex, nextUnit, rngW, alookup, aset,
            round2, pyRound, pyInt, agentW, List.find?, List.getD,
            COMPETENCY_NAMES, TRAITS, Int.toNat]
        | norm_num)
  exact ⟨h.1, h.2.1, h.2.2.2.1, h.2.2.2.2.2.1, h.2.2.2.2.2.2.2.1,
    h.2.2.2.2.2.2.2.2.1, h.2.2.2.2.2.2.2.2.2.1, h.2.2.2.2.2.2.2.2.2.2.1,
    h.2.2.2.2.2.2.2.2.2.2.2.1, h.2.2.2.2.2.2.2.2.2.2.2.2⟩
